import Mathlib

/-!
Shallow embedding of the DART demand-responsive route assignment engine
(`DARTSystem` in `dart-streamlit-app.py`): the data model, the per-vehicle
greedy route construction `find_optimal_route`, and the planning cycle
`update_all_routes`.  The UI/rendering layer (Streamlit widgets, Plotly
charts, animation frames) is out of scope, as are the purely decorative
`route_color` / `label` fields of `Bus`.

Conventions of the embedding:
* Python `int` becomes `ℤ`; Python `float` arithmetic in the scoring formula
  becomes exact `ℚ` arithmetic (the literals `0.4`, `0.4`, `0.2` are modelled
  as the exact rationals `2/5`, `2/5`, `1/5`).
* Python dicts keyed by strings become association lists (`self.stops`,
  `remaining_demands`, each in insertion order) or total functions with
  default `0` (`self.assigned_demands`, which is only ever read through
  `.get(stop_id, 0)`).
* A Python `KeyError` (e.g. `self.stops[current_stop]` for an unknown id)
  is modelled by an `Option`-valued result: `none` is an uncaught exception.
* `_calculate_distance` is the haversine great-circle formula over real
  trigonometric functions; its real analysis is not executable, so the
  engine is parametrised by the distance function `hav` on locations.
  Theorems that depend on properties of the actual haversine assume only
  its nonnegativity.
-/

namespace DART

attribute [local semireducible] Rat.mul Rat.inv Rat.add Rat.sub

/-- `Location` dataclass: latitude/longitude (degrees). -/
structure Location where
  latitude : ℚ
  longitude : ℚ
deriving DecidableEq

/-- `BusStop` dataclass: id, location, current demand, total served. -/
structure BusStop where
  id : String
  location : Location
  demand : ℤ
  total_served : ℤ
deriving DecidableEq

/-- `Bus` dataclass: id, current stop, capacity, passengers, assigned route
(`None` until a planning cycle stores one).  The display-only fields
`route_color` and `label` are omitted. -/
structure Bus where
  id : String
  current_stop : String
  capacity : ℤ
  passengers : ℤ
  route : Option (List String)
deriving DecidableEq

/-- `DARTSystem` state: the stop dict (insertion order), the bus dict
(insertion order), and the cross-vehicle demand ledger
`self.assigned_demands` (read via `.get(stop_id, 0)`, hence a total
function with default `0`). -/
structure DARTSystem where
  stops : List BusStop
  buses : List Bus
  assigned_demands : String → ℤ

/-- Dict lookup `self.stops[sid]`: first stop in insertion order with the
given id (`none` models a `KeyError`). -/
def lookupStop (stops : List BusStop) (sid : String) : Option BusStop :=
  stops.find? (fun s => s.id == sid)

/-- Dict lookup `self.buses[bid]` (`none` models a `KeyError`). -/
def lookupBus (buses : List Bus) (bid : String) : Option Bus :=
  buses.find? (fun b => b.id == bid)

/-- The `remaining_demands` dict built at the top of `find_optimal_route`:
`{stop_id: max(0, stop.demand - self.assigned_demands.get(stop_id, 0))}`. -/
def remainingDemands (stops : List BusStop) (assigned : String → ℤ) :
    List (String × ℤ) :=
  stops.map (fun s => (s.id, max 0 (s.demand - assigned s.id)))

/-- The fallback dict `{stop_id: stop.demand}` used when the remaining
demands sum to zero. -/
def totalDemands (stops : List BusStop) : List (String × ℤ) :=
  stops.map (fun s => (s.id, s.demand))

/-- Read `remaining_demands[sid]`.  In `find_optimal_route` this is only
evaluated at `next_stop`, which is always a key of the dict, so the
default `0` of this total model is never consulted by the engine. -/
def remLookup (rems : List (String × ℤ)) (sid : String) : ℤ :=
  match rems.find? (fun p => p.1 == sid) with
  | some p => p.2
  | none => 0

/-- `self.assigned_demands[sid] = self.assigned_demands.get(sid, 0) + units`. -/
def ledgerClaim (assigned : String → ℤ) (sid : String) (units : ℤ) :
    String → ℤ :=
  fun x => if x = sid then assigned sid + units else assigned x

/-- The body of the candidate-scoring step of `find_optimal_route`: the
distance from the current stop (with the `0.1` substitution for a zero
distance), the demand, distance and coverage factors, and the weighted
score `0.4 * demand_score + 0.4 * distance_score + 0.2 * coverage_score`.
`none` models the `KeyError` raised when a stop id is absent from
`self.stops`. -/
def stopScore (hav : Location → Location → ℚ) (stops : List BusStop)
    (busStarts : List String) (capacity : ℤ) (current sid : String)
    (demand : ℤ) : Option ℚ :=
  match lookupStop stops current, lookupStop stops sid with
  | some cs, some ss =>
    let d0 := hav cs.location ss.location
    let d : ℚ := if d0 = 0 then 1/10 else d0
    let demand_score : ℚ := (demand : ℚ) / (capacity : ℚ)
    let distance_score : ℚ := 1 / d
    let coverage_score : ℚ := if sid ∈ busStarts then 0 else 1
    some (2/5 * demand_score + 2/5 * distance_score + 1/5 * coverage_score)
  | _, _ => none

/-- The inner `for stop_id, demand in remaining_demands.items()` selection
loop of `find_optimal_route`: tracks `best_score` (initially `-1`) and
`next_stop` (initially `None`), skipping stops already in `route`, and
replacing the best candidate on a strictly greater score.  Returns
`none` for a `KeyError` on a stop lookup, otherwise `some next_stop`. -/
def selectNext (hav : Location → Location → ℚ) (stops : List BusStop)
    (busStarts : List String) (capacity : ℤ) (route : List String)
    (current : String) :
    List (String × ℤ) → ℚ → Option String → Option (Option String)
  | [], _, best => some best
  | (sid, demand) :: rest, bestScore, best =>
    if sid ∈ route then
      selectNext hav stops busStarts capacity route current rest bestScore best
    else
      match stopScore hav stops busStarts capacity current sid demand with
      | some sc =>
        if bestScore < sc then
          selectNext hav stops busStarts capacity route current rest sc (some sid)
        else
          selectNext hav stops busStarts capacity route current rest bestScore best
      | none => none

/-- The `while len(route) < max_stops and remaining_capacity > 0` loop of
`find_optimal_route`.  The fuel argument is `max_stops - len(route)`:
each iteration appends exactly one stop, so fuel `0` is exactly the
`len(route) < max_stops` guard failing.  State: the route so far, the
remaining capacity, the ledger `self.assigned_demands`, and
`current_stop`. -/
def routeLoop (hav : Location → Location → ℚ) (stops : List BusStop)
    (busStarts : List String) (capacity : ℤ) (rems : List (String × ℤ)) :
    Nat → List String → ℤ → (String → ℤ) → String →
    Option (List String × (String → ℤ))
  | 0, route, _, assigned, _ => some (route, assigned)
  | Nat.succ fuel, route, cap, assigned, current =>
    if 0 < cap then
      match selectNext hav stops busStarts capacity route current rems (-1) none with
      | none => none
      | some none => some (route, assigned)
      | some (some next) =>
        routeLoop hav stops busStarts capacity rems fuel (route ++ [next])
          (cap - min (remLookup rems next) cap)
          (ledgerClaim assigned next (min (remLookup rems next) cap)) next
    else some (route, assigned)

/-- `DARTSystem.find_optimal_route(bus_id, max_stops)`: looks up the bus,
computes `remaining_demands` from the ledger (falling back to the raw
demands when they sum to zero), then runs the greedy selection loop
starting from `route = [bus.current_stop]` with
`remaining_capacity = bus.capacity`.  Returns the route together with
the mutated ledger (`none` models an uncaught `KeyError`). -/
def find_optimal_route (hav : Location → Location → ℚ) (stops : List BusStop)
    (buses : List Bus) (assigned : String → ℤ) (bus_id : String)
    (max_stops : Nat) : Option (List String × (String → ℤ)) :=
  match lookupBus buses bus_id with
  | none => none
  | some bus =>
    let rems0 := remainingDemands stops assigned
    let rems := if (rems0.map Prod.snd).sum = 0 then totalDemands stops else rems0
    routeLoop hav stops (buses.map Bus.current_stop) bus.capacity rems
      (max_stops - 1) [bus.current_stop] bus.capacity assigned bus.current_stop

/-- Store a computed route on the bus: `self.buses[bus_id].route = route`. -/
def setRoute (buses : List Bus) (bus_id : String) (r : List String) :
    List Bus :=
  buses.map (fun b => if b.id == bus_id then
    { id := b.id, current_stop := b.current_stop, capacity := b.capacity,
      passengers := b.passengers, route := some r }
    else b)

/-- Lexicographic code-point comparison of character lists: the order Python
uses to compare strings in `sorted`. -/
def lexLe : List Char → List Char → Bool
  | [], _ => true
  | _ :: _, [] => false
  | a :: as, b :: bs =>
    if a.toNat < b.toNat then true
    else if b.toNat < a.toNat then false
    else lexLe as bs

/-- Python string comparison `a <= b` (by Unicode code point). -/
def strLe (a b : String) : Bool :=
  lexLe a.data b.data

/-- `sorted(self.buses.keys())`: the bus ids in ascending lexicographic
order (Python `sorted` is a stable ascending sort). -/
def sortedBusIds (buses : List Bus) : List String :=
  List.insertionSort (fun a b => strLe a b = true) (buses.map Bus.id)

/-- The `for bus_id in bus_ids` loop of `update_all_routes`: each vehicle's
route is built against the ledger left by the previous vehicles, then
stored on the bus. -/
def planAux (hav : Location → Location → ℚ) (stops : List BusStop) :
    List String → List Bus → (String → ℤ) →
    Option (List Bus × (String → ℤ))
  | [], buses, assigned => some (buses, assigned)
  | bus_id :: ids, buses, assigned =>
    match find_optimal_route hav stops buses assigned bus_id 5 with
    | none => none
    | some (r, assigned') =>
      planAux hav stops ids (setRoute buses bus_id r) assigned'

/-- `DARTSystem.update_all_routes()`: reset the ledger
(`self.assigned_demands = {}`), then process the buses in ascending id
order, building and storing each route (each call uses the default
`max_stops = 5`). -/
def update_all_routes (hav : Location → Location → ℚ) (sys : DARTSystem) :
    Option DARTSystem :=
  match planAux hav sys.stops (sortedBusIds sys.buses) sys.buses (fun _ => 0) with
  | none => none
  | some (buses', assigned') =>
    some { stops := sys.stops, buses := buses', assigned_demands := assigned' }

/-- A concrete executable stand-in distance used by the concrete scenarios
(taxicab distance on the rational coordinates); like the haversine it is
nonnegative and symmetric. -/
def mdist (p q : Location) : ℚ :=
  |p.latitude - q.latitude| + |p.longitude - q.longitude|

/-- Total demand of the stop with the given id (`0` for an unknown id). -/
def demandOf (stops : List BusStop) (sid : String) : ℤ :=
  match lookupStop stops sid with
  | some s => s.demand
  | none => 0

/-- `BusShape b b'`: same id, start stop and capacity — exactly the fields
`find_optimal_route` reads; the stored route may differ. -/
def BusShape (b b' : Bus) : Prop :=
  b.id = b'.id ∧ b.current_stop = b'.current_stop ∧ b.capacity = b'.capacity

/-- Decidable trace predicate on a planning cycle: the zero-remaining
fallback of `find_optimal_route` is never triggered — before each vehicle
is processed, the remaining demands do not sum to zero. -/
def noFallback (hav : Location → Location → ℚ) (stops : List BusStop) :
    List String → List Bus → (String → ℤ) → Bool
  | [], _, _ => true
  | bid :: ids, buses, assigned =>
    decide (((remainingDemands stops assigned).map Prod.snd).sum ≠ 0) &&
    (match find_optimal_route hav stops buses assigned bid 5 with
     | none => true
     | some (r, a') => noFallback hav stops ids (setRoute buses bid r) a')

/-! ### Concrete systems used in counterexamples and witnesses -/

/-- The spec's concrete scenario: stops `A` (demand 50, at the origin),
`B` (demand 10, 10 km away), `C` (demand 0, 5 km away); one bus of
capacity 60 starting at `A`. -/
def scenarioStops : List BusStop :=
  [⟨"A", ⟨0, 0⟩, 50, 0⟩, ⟨"B", ⟨10, 0⟩, 10, 0⟩, ⟨"C", ⟨5, 0⟩, 0, 0⟩]

def scenarioBuses : List Bus := [⟨"Bus_0", "A", 60, 0, none⟩]

def scenarioSys : DARTSystem := ⟨scenarioStops, scenarioBuses, fun _ => 0⟩

/-- Two buses of capacity 60 at `A`; only stop `B` has demand (10).  The
second bus finds all remaining demands zero and triggers the fallback. -/
def fallbackStops : List BusStop :=
  [⟨"A", ⟨0, 0⟩, 0, 0⟩, ⟨"B", ⟨1, 0⟩, 10, 0⟩]

def fallbackBuses : List Bus :=
  [⟨"Bus_0", "A", 60, 0, none⟩, ⟨"Bus_1", "A", 60, 0, none⟩]

def fallbackSys : DARTSystem := ⟨fallbackStops, fallbackBuses, fun _ => 0⟩

/-- The ledger left after the first bus of `fallbackSys` claimed all 10
units of `B`. -/
def fallbackLedger : String → ℤ := fun sid => if sid = "B" then 10 else 0

/-- Two stops, both with zero demand, one bus of capacity 60. -/
def zeroStops : List BusStop :=
  [⟨"A", ⟨0, 0⟩, 0, 0⟩, ⟨"B", ⟨1, 0⟩, 0, 0⟩]

def zeroSys : DARTSystem := ⟨zeroStops, [⟨"Bus_0", "A", 60, 0, none⟩], fun _ => 0⟩

/-- The spec's two-vehicle visibility scenario: one stop `S` with demand 20
and two buses of capacity 5 starting at the zero-demand stop `X`. -/
def shareStops : List BusStop :=
  [⟨"S", ⟨0, 0⟩, 20, 0⟩, ⟨"X", ⟨1, 0⟩, 0, 0⟩]

def shareBuses : List Bus :=
  [⟨"Bus_0", "X", 5, 0, none⟩, ⟨"Bus_1", "X", 5, 0, none⟩]

def shareSys : DARTSystem := ⟨shareStops, shareBuses, fun _ => 0⟩

/-- Invalid inputs in the sense of the spec's error taxonomy: a negative
demand at `A`, a zero-capacity bus, and a bus whose start `"Z"` is not a
known stop id. -/
def invalidStops : List BusStop :=
  [⟨"A", ⟨0, 0⟩, -5, 0⟩, ⟨"B", ⟨1, 0⟩, 7, 0⟩]

def invalidBuses : List Bus :=
  [⟨"Bus_0", "A", 10, 0, none⟩, ⟨"Bus_1", "Z", 0, 0, none⟩]

def invalidSys : DARTSystem := ⟨invalidStops, invalidBuses, fun _ => 0⟩

/-- A one-stop, one-bus system used as a witness input. -/
def tinyStops : List BusStop := [⟨"A", ⟨0, 0⟩, 1, 0⟩]

def tinyBuses : List Bus := [⟨"Bus_0", "A", 1, 0, none⟩]

def tinySys : DARTSystem := ⟨tinyStops, tinyBuses, fun _ => 0⟩

end DART

namespace DART

/-! ### Lookup lemmas -/

theorem lookupStop_isSome_of_mem {stops : List BusStop} {s : BusStop}
    (hs : s ∈ stops) : (lookupStop stops s.id).isSome := by
  rw [lookupStop, List.find?_isSome]
  exact ⟨s, hs, by simp⟩

theorem lookupStop_mem {stops : List BusStop} {sid : String} {s : BusStop}
    (h : lookupStop stops sid = some s) : s ∈ stops ∧ s.id = sid := by
  refine ⟨List.mem_of_find?_eq_some h, ?_⟩
  have := List.find?_some h
  simpa using this

theorem lookupStop_of_nodup {stops : List BusStop} {s : BusStop}
    (hnd : (stops.map BusStop.id).Nodup) (hs : s ∈ stops) :
    lookupStop stops s.id = some s := by
  induction stops with
  | nil => cases hs
  | cons t rest ih =>
    rw [List.map_cons, List.nodup_cons] at hnd
    rcases List.mem_cons.mp hs with h | h
    · subst h
      simp [lookupStop, List.find?]
    · have hne : ¬ (t.id == s.id) = true := by
        intro hb
        apply hnd.1
        rw [beq_iff_eq] at hb
        rw [hb]
        exact List.mem_map_of_mem BusStop.id h
      simpa [lookupStop, List.find?, hne] using ih hnd.2 h

theorem lookupBus_isSome_of_mem_ids {buses : List Bus} {bid : String}
    (h : bid ∈ buses.map Bus.id) : (lookupBus buses bid).isSome := by
  rw [lookupBus, List.find?_isSome]
  rcases List.mem_map.mp h with ⟨b, hb, rfl⟩
  exact ⟨b, hb, by simp⟩

theorem lookupBus_mem {buses : List Bus} {bid : String} {b : Bus}
    (h : lookupBus buses bid = some b) : b ∈ buses ∧ b.id = bid := by
  refine ⟨List.mem_of_find?_eq_some h, ?_⟩
  have := List.find?_some h
  simpa using this

/-- Reading a dict comprehension over the stop list: the value at `sid` is the
function of the first stop with id `sid` (default `0` when absent). -/
theorem remLookup_map (f : BusStop → ℤ) (stops : List BusStop) (sid : String) :
    remLookup (stops.map (fun s => (s.id, f s))) sid =
      (match lookupStop stops sid with
       | some s => f s
       | none => 0) := by
  induction stops with
  | nil => rfl
  | cons t rest ih =>
    by_cases h : t.id = sid
    · simp [remLookup, lookupStop, List.find?, h]
    · have hb : ¬ (t.id == sid) = true := by simpa using h
      simp only [List.map_cons, remLookup, List.find?, hb, lookupStop] at *
      exact ih

theorem remLookup_remainingDemands (stops : List BusStop)
    (assigned : String → ℤ) (sid : String) :
    remLookup (remainingDemands stops assigned) sid =
      (match lookupStop stops sid with
       | some s => max 0 (s.demand - assigned s.id)
       | none => 0) :=
  remLookup_map (fun s => max 0 (s.demand - assigned s.id)) stops sid

theorem remLookup_totalDemands (stops : List BusStop) (sid : String) :
    remLookup (totalDemands stops) sid =
      (match lookupStop stops sid with
       | some s => s.demand
       | none => 0) :=
  remLookup_map (fun s => s.demand) stops sid

end DART

namespace DART

/-! ### Properties of the inner selection loop -/

/-- A chosen `next_stop` is never already in the route and always comes from
the keys of `remaining_demands` (unless it was already the incoming best
candidate). -/
theorem selectNext_spec (hav : Location → Location → ℚ) (stops : List BusStop)
    (busStarts : List String) (capacity : ℤ) (route : List String)
    (current : String) :
    ∀ (rems : List (String × ℤ)) (bs : ℚ) (best : Option String) (x : String),
    selectNext hav stops busStarts capacity route current rems bs best
      = some (some x) →
    (x ∉ route ∧ x ∈ rems.map Prod.fst) ∨ best = some x := by
  intro rems
  induction rems with
  | nil =>
    intro bs best x h
    right
    simpa [selectNext] using h
  | cons p rest ih =>
    intro bs best x h
    obtain ⟨sid, d⟩ := p
    simp only [selectNext] at h
    split at h
    · rcases ih _ _ _ h with ⟨h1, h2⟩ | h1
      · exact Or.inl ⟨h1, by simp [h2]⟩
      · exact Or.inr h1
    · rename_i hr
      split at h
      · split at h
        · rcases ih _ _ _ h with ⟨h1, h2⟩ | h1
          · exact Or.inl ⟨h1, by simp [h2]⟩
          · obtain rfl : sid = x := Option.some_inj.mp h1
            exact Or.inl ⟨hr, by simp⟩
        · rcases ih _ _ _ h with ⟨h1, h2⟩ | h1
          · exact Or.inl ⟨h1, by simp [h2]⟩
          · exact Or.inr h1
      · exact absurd h (by simp)

/-- The selection loop only raises a `KeyError` when a stop id it must look
up is absent: with `current` and every key of `remaining_demands` present
in the stop dict it always returns. -/
theorem selectNext_isSome (hav : Location → Location → ℚ)
    (stops : List BusStop) (busStarts : List String) (capacity : ℤ)
    (route : List String) (current : String)
    (hcur : (lookupStop stops current).isSome) :
    ∀ (rems : List (String × ℤ)),
    (∀ p ∈ rems, (lookupStop stops p.1).isSome) →
    ∀ (bs : ℚ) (best : Option String),
    (selectNext hav stops busStarts capacity route current rems bs best).isSome := by
  intro rems
  induction rems with
  | nil => intro _ bs best; simp [selectNext]
  | cons p rest ih =>
    intro hkeys bs best
    obtain ⟨sid, d⟩ := p
    have hrest : ∀ p ∈ rest, (lookupStop stops p.1).isSome := by
      intro q hq
      exact hkeys q (List.mem_cons_of_mem _ hq)
    have hsid : (lookupStop stops sid).isSome :=
      hkeys (sid, d) (List.mem_cons_self _ _)
    rcases Option.isSome_iff_exists.mp hcur with ⟨cs, hcs⟩
    rcases Option.isSome_iff_exists.mp hsid with ⟨ss, hss⟩
    simp only [selectNext, stopScore, hcs, hss]
    split
    · exact ih hrest bs best
    · split <;> split
      all_goals split
      all_goals exact ih hrest _ _

end DART

namespace DART

/-- Every candidate score is strictly positive whenever the bus capacity is
positive, the candidate's offered demand is nonnegative, and the distance
function is nonnegative (as the haversine is): the distance factor alone
contributes a positive amount. -/
theorem stopScore_pos (hav : Location → Location → ℚ) (stops : List BusStop)
    (busStarts : List String) {capacity : ℤ} (current sid : String)
    {demand : ℤ} {sc : ℚ}
    (hhav : ∀ p q, 0 ≤ hav p q) (hcap : 0 < capacity) (hd : 0 ≤ demand)
    (h : stopScore hav stops busStarts capacity current sid demand = some sc) :
    0 < sc := by
  rw [stopScore] at h
  rcases hcs : lookupStop stops current with _ | cs
  · rw [hcs] at h; exact absurd h (by simp)
  rcases hss : lookupStop stops sid with _ | ss
  · rw [hcs, hss] at h; exact absurd h (by simp)
  rw [hcs, hss] at h
  simp only [Option.some_inj] at h
  subst h
  have hdpos : 0 < (if hav cs.location ss.location = 0 then (1:ℚ)/10
      else hav cs.location ss.location) := by
    split
    · norm_num
    · rename_i hne
      exact lt_of_le_of_ne (hhav _ _) (Ne.symm hne)
  have h1 : (0:ℚ) ≤ 2/5 * ((demand : ℚ) / (capacity : ℚ)) := by
    apply mul_nonneg (by norm_num)
    apply div_nonneg
    · exact_mod_cast hd
    · exact_mod_cast le_of_lt hcap
  have h2 : (0:ℚ) < 2/5 * (1 / (if hav cs.location ss.location = 0 then (1:ℚ)/10
      else hav cs.location ss.location)) :=
    mul_pos (by norm_num) (one_div_pos.mpr hdpos)
  have h3 : (0:ℚ) ≤ 1/5 * (if sid ∈ busStarts then (0:ℚ) else 1) := by
    split <;> norm_num
  linarith

/-- The selection loop never declines a candidate: as long as some stop is
not yet on the route (and the inputs satisfy the nonnegativity conditions
under which all scores are positive, hence above the initial best score
`-1`), a next stop is returned. -/
theorem selectNext_picks (hav : Location → Location → ℚ) (stops : List BusStop)
    (busStarts : List String) (capacity : ℤ) (route : List String)
    (current : String)
    (hhav : ∀ p q, 0 ≤ hav p q) (hcap : 0 < capacity)
    (hcur : (lookupStop stops current).isSome) :
    ∀ (rems : List (String × ℤ)),
    (∀ p ∈ rems, (lookupStop stops p.1).isSome) →
    (∀ p ∈ rems, 0 ≤ p.2) →
    ∀ (bs : ℚ) (best : Option String),
    (best = none → bs < 0) →
    (∀ y, best = some y → y ∉ route) →
    ((∃ p ∈ rems, p.1 ∉ route) ∨ ∃ y, best = some y) →
    ∃ x, selectNext hav stops busStarts capacity route current rems bs best
      = some (some x) ∧ x ∉ route := by
  intro rems
  induction rems with
  | nil =>
    intro _ _ bs best hb hcarry hcand
    rcases hcand with ⟨p, hp, _⟩ | ⟨y, hy⟩
    · cases hp
    · exact ⟨y, by simp [selectNext, hy], hcarry y hy⟩
  | cons p rest ih =>
    intro hkeys hvals bs best hb hcarry hcand
    obtain ⟨sid, d⟩ := p
    have hrest : ∀ q ∈ rest, (lookupStop stops q.1).isSome :=
      fun q hq => hkeys q (List.mem_cons_of_mem _ hq)
    have hvrest : ∀ q ∈ rest, 0 ≤ q.2 :=
      fun q hq => hvals q (List.mem_cons_of_mem _ hq)
    rcases Option.isSome_iff_exists.mp hcur with ⟨cs, hcs⟩
    rcases Option.isSome_iff_exists.mp (hkeys (sid, d) (List.mem_cons_self _ _))
      with ⟨ss, hss⟩
    have hsc : ∃ sc, stopScore hav stops busStarts capacity current sid d
        = some sc := by
      rw [stopScore, hcs, hss]
      exact ⟨_, rfl⟩
    obtain ⟨sc, hsceq⟩ := hsc
    have hscpos : 0 < sc :=
      stopScore_pos hav stops busStarts current sid hhav hcap
        (hvals (sid, d) (List.mem_cons_self _ _)) hsceq
    by_cases hr : sid ∈ route
    · have hcand' : (∃ q ∈ rest, q.1 ∉ route) ∨ ∃ y, best = some y := by
        rcases hcand with ⟨q, hq, hqr⟩ | hy
        · rcases List.mem_cons.mp hq with rfl | hq'
          · exact absurd hr hqr
          · exact Or.inl ⟨q, hq', hqr⟩
        · exact Or.inr hy
      simpa [selectNext, hr] using ih hrest hvrest bs best hb hcarry hcand'
    · by_cases hlt : bs < sc
      · have := ih hrest hvrest sc (some sid)
          (by intro h; cases h)
          (by intro y hy; cases hy; exact hr)
          (Or.inr ⟨sid, rfl⟩)
        simpa [selectNext, hr, hsceq, hlt] using this
      · have hbsome : ∃ y, best = some y := by
          rcases hcand with _ | hy
          · cases hbest : best with
            | none => exact absurd (lt_trans (hb hbest) hscpos) hlt
            | some y => exact ⟨y, rfl⟩
          · exact hy
        have := ih hrest hvrest bs best hb hcarry (Or.inr hbsome)
        simpa [selectNext, hr, hsceq, hlt] using this

end DART

namespace DART

/-! ### Properties of the route-construction loop -/

/-- The route grows by at most the remaining fuel (`max_stops` minus the
current length) and never acquires a duplicate stop: every appended stop
comes out of the selection loop, which skips stops already on the route. -/
theorem routeLoop_length_nodup (hav : Location → Location → ℚ)
    (stops : List BusStop) (busStarts : List String) (capacity : ℤ)
    (rems : List (String × ℤ)) :
    ∀ (fuel : Nat) (route : List String) (cap : ℤ) (assigned : String → ℤ)
      (current : String) (r : List String) (a : String → ℤ),
    routeLoop hav stops busStarts capacity rems fuel route cap assigned current
      = some (r, a) →
    r.length ≤ route.length + fuel ∧ (route.Nodup → r.Nodup) := by
  intro fuel
  induction fuel with
  | zero =>
    intro route cap assigned current r a h
    simp only [routeLoop, Option.some_inj, Prod.mk.injEq] at h
    obtain ⟨rfl, rfl⟩ := h
    exact ⟨by omega, id⟩
  | succ fuel ih =>
    intro route cap assigned current r a h
    simp only [routeLoop] at h
    split at h
    · split at h
      · exact absurd h (by simp)
      · simp only [Option.some_inj, Prod.mk.injEq] at h
        obtain ⟨rfl, rfl⟩ := h
        exact ⟨by omega, id⟩
      · rename_i next hsel
        have hnext : next ∉ route := by
          rcases selectNext_spec hav stops busStarts capacity route current
            rems (-1) none next hsel with ⟨h1, _⟩ | h1
          · exact h1
          · cases h1
        obtain ⟨hlen, hnd⟩ := ih _ _ _ _ _ _ h
        constructor
        · have hL : (route ++ [next]).length = route.length + 1 := by simp
          omega
        · intro hndr
          apply hnd
          simp [List.nodup_append, hndr, hnext]
    · simp only [Option.some_inj, Prod.mk.injEq] at h
      obtain ⟨rfl, rfl⟩ := h
      exact ⟨by omega, id⟩

/-- The loop only fails (Python `KeyError`) when a stop id it must look up is
missing: with `current` and all `remaining_demands` keys present it
returns. -/
theorem routeLoop_isSome (hav : Location → Location → ℚ)
    (stops : List BusStop) (busStarts : List String) (capacity : ℤ)
    (rems : List (String × ℤ))
    (hkeys : ∀ p ∈ rems, (lookupStop stops p.1).isSome) :
    ∀ (fuel : Nat) (route : List String) (cap : ℤ) (assigned : String → ℤ)
      (current : String),
    (lookupStop stops current).isSome →
    (routeLoop hav stops busStarts capacity rems fuel route cap assigned
      current).isSome := by
  intro fuel
  induction fuel with
  | zero => intro route cap assigned current _; simp [routeLoop]
  | succ fuel ih =>
    intro route cap assigned current hcur
    simp only [routeLoop]
    split
    · rcases Option.isSome_iff_exists.mp
        (selectNext_isSome hav stops busStarts capacity route current hcur
          rems hkeys (-1) none) with ⟨res, hres⟩
      rw [hres]
      cases res with
      | none => simp
      | some next =>
        have hnext : (lookupStop stops next).isSome := by
          rcases selectNext_spec hav stops busStarts capacity route current
            rems (-1) none next hres with ⟨_, hmem⟩ | h1
          · rcases List.mem_map.mp hmem with ⟨p, hp, rfl⟩
            exact hkeys p hp
          · cases h1
        exact ih _ _ _ _ hnext
    · simp

/-- Core bound used for the frozen-demand ledger invariant: if before the
loop the ledger is `A0` outside the route and every claimable amount obeys
`A0 sid + remaining(sid) ≤ max (A0 sid) (D sid)`, then the ledger after
the loop stays below `max (A0 sid) (D sid)` — each stop on the route is
claimed at most once, for at most its offered remaining demand. -/
theorem routeLoop_ledger_bound (hav : Location → Location → ℚ)
    (stops : List BusStop) (busStarts : List String) (capacity : ℤ)
    (rems : List (String × ℤ)) (A0 D : String → ℤ)
    (hrem : ∀ sid, A0 sid + remLookup rems sid ≤ max (A0 sid) (D sid)) :
    ∀ (fuel : Nat) (route : List String) (cap : ℤ) (assigned : String → ℤ)
      (current : String) (r : List String) (a : String → ℤ),
    routeLoop hav stops busStarts capacity rems fuel route cap assigned current
      = some (r, a) →
    (∀ sid, sid ∉ route → assigned sid = A0 sid) →
    (∀ sid, assigned sid ≤ max (A0 sid) (D sid)) →
    ∀ sid, a sid ≤ max (A0 sid) (D sid) := by
  intro fuel
  induction fuel with
  | zero =>
    intro route cap assigned current r a h hout hin
    simp only [routeLoop, Option.some_inj, Prod.mk.injEq] at h
    obtain ⟨rfl, rfl⟩ := h
    exact hin
  | succ fuel ih =>
    intro route cap assigned current r a h hout hin
    simp only [routeLoop] at h
    split at h
    · split at h
      · exact absurd h (by simp)
      · simp only [Option.some_inj, Prod.mk.injEq] at h
        obtain ⟨rfl, rfl⟩ := h
        exact hin
      · rename_i next hsel
        have hnext : next ∉ route := by
          rcases selectNext_spec hav stops busStarts capacity route current
            rems (-1) none next hsel with ⟨h1, _⟩ | h1
          · exact h1
          · cases h1
        refine ih _ _ _ _ _ _ h ?_ ?_
        · intro sid hsid
          rw [List.mem_append] at hsid
          push_neg at hsid
          have h1 : sid ∉ route := hsid.1
          have h2 : sid ≠ next := by
            intro hEq
            exact hsid.2 (by simp [hEq])
          simp only [ledgerClaim, if_neg h2]
          exact hout sid h1
        · intro sid
          by_cases hEq : sid = next
          · subst hEq
            simp only [ledgerClaim, if_pos rfl]
            have hA : assigned sid = A0 sid := hout sid hnext
            rw [hA]
            calc A0 sid + min (remLookup rems sid) cap
                ≤ A0 sid + remLookup rems sid := by
                  have := min_le_left (remLookup rems sid) cap
                  omega
              _ ≤ max (A0 sid) (D sid) := hrem sid
          · simp only [ledgerClaim, if_neg hEq]
            exact hin sid
    · simp only [Option.some_inj, Prod.mk.injEq] at h
      obtain ⟨rfl, rfl⟩ := h
      exact hin

/-- When every entry of `remaining_demands` is `0` every pickup is
`min(0, cap) = 0`, so the loop leaves the ledger untouched. -/
theorem routeLoop_zero (hav : Location → Location → ℚ)
    (stops : List BusStop) (busStarts : List String) (capacity : ℤ)
    (rems : List (String × ℤ)) (hrem : ∀ sid, remLookup rems sid = 0) :
    ∀ (fuel : Nat) (route : List String) (cap : ℤ) (assigned : String → ℤ)
      (current : String) (r : List String) (a : String → ℤ),
    routeLoop hav stops busStarts capacity rems fuel route cap assigned current
      = some (r, a) →
    ∀ sid, a sid = assigned sid := by
  intro fuel
  induction fuel with
  | zero =>
    intro route cap assigned current r a h
    simp only [routeLoop, Option.some_inj, Prod.mk.injEq] at h
    obtain ⟨rfl, rfl⟩ := h
    intro sid; rfl
  | succ fuel ih =>
    intro route cap assigned current r a h
    simp only [routeLoop] at h
    split at h
    · rename_i hcap
      split at h
      · exact absurd h (by simp)
      · simp only [Option.some_inj, Prod.mk.injEq] at h
        obtain ⟨rfl, rfl⟩ := h
        intro sid; rfl
      · rename_i next hsel
        intro sid
        have hstep := ih _ _ _ _ _ _ h sid
        rw [hstep]
        have hmin : min (remLookup rems next) cap = 0 := by
          rw [hrem next]
          exact min_eq_left (le_of_lt hcap)
        simp only [ledgerClaim, hmin, add_zero]
        split
        · rename_i hEq; rw [hEq]
        · rfl
    · simp only [Option.some_inj, Prod.mk.injEq] at h
      obtain ⟨rfl, rfl⟩ := h
      intro sid; rfl

end DART

namespace DART

/-! ### Properties of find_optimal_route -/

theorem remainingDemands_keys {stops : List BusStop} {assigned : String → ℤ}
    {p : String × ℤ} (hp : p ∈ remainingDemands stops assigned) :
    (lookupStop stops p.1).isSome := by
  rcases List.mem_map.mp hp with ⟨s, hs, rfl⟩
  exact lookupStop_isSome_of_mem hs

theorem totalDemands_keys {stops : List BusStop} {p : String × ℤ}
    (hp : p ∈ totalDemands stops) : (lookupStop stops p.1).isSome := by
  rcases List.mem_map.mp hp with ⟨s, hs, rfl⟩
  exact lookupStop_isSome_of_mem hs

/-- A vehicle with nonpositive capacity fails the `remaining_capacity > 0`
guard immediately: the returned route is just the start stop and the
ledger is untouched, whatever the distance function, ledger and demands
are. -/
theorem find_capacity_nonpos (hav : Location → Location → ℚ)
    (stops : List BusStop) (buses : List Bus) (assigned : String → ℤ)
    (bid : String) (bus : Bus) (m : Nat)
    (hb : lookupBus buses bid = some bus) (hcap : bus.capacity ≤ 0) :
    find_optimal_route hav stops buses assigned bid m
      = some ([bus.current_stop], assigned) := by
  unfold find_optimal_route
  rw [hb]
  cases hm : m - 1 with
  | zero => rfl
  | succ fuel =>
    simp only [routeLoop]
    rw [if_neg (not_lt.mpr hcap)]

theorem ledger_max_bound (a d : ℤ) : a + max 0 (d - a) ≤ max a d := by
  rcases le_total a d with h | h
  · rw [max_eq_right (by omega : (0:ℤ) ≤ d - a), max_eq_right h]
    omega
  · rw [max_eq_left (by omega : d - a ≤ 0), max_eq_left h]
    omega

/-- Frozen-demand bound for one vehicle, outside the fallback: when the
remaining demands do not sum to zero, the ledger after `find_optimal_route`
is bounded by `max(claimed_before, total_demand)` at every stop. -/
theorem find_ledger_bound (hav : Location → Location → ℚ)
    (stops : List BusStop) (buses : List Bus) (assigned : String → ℤ)
    (bid : String) (m : Nat) (r : List String) (a : String → ℤ)
    (hsum : ((remainingDemands stops assigned).map Prod.snd).sum ≠ 0)
    (h : find_optimal_route hav stops buses assigned bid m = some (r, a)) :
    ∀ sid, a sid ≤ max (assigned sid) (demandOf stops sid) := by
  unfold find_optimal_route at h
  rcases hb : lookupBus buses bid with _ | bus
  · rw [hb] at h; exact absurd h (by simp)
  rw [hb] at h
  simp only [if_neg hsum] at h
  refine routeLoop_ledger_bound hav stops (buses.map Bus.current_stop)
    bus.capacity (remainingDemands stops assigned) assigned (demandOf stops)
    ?_ _ _ _ _ _ _ _ h (fun _ _ => rfl) (fun sid => le_max_left _ _)
  intro sid
  rcases hs : lookupStop stops sid with _ | s
  · simp only [remLookup_remainingDemands, hs, add_zero]
    exact le_max_left _ _
  · have hsid : s.id = sid := (lookupStop_mem hs).2
    have hdem : demandOf stops sid = s.demand := by rw [demandOf, hs]
    simp only [remLookup_remainingDemands, hs, hdem, hsid]
    exact ledger_max_bound (assigned sid) s.demand

/-- The returned route respects `max_stops` and never repeats a stop. -/
theorem find_route_length_nodup (hav : Location → Location → ℚ)
    (stops : List BusStop) (buses : List Bus) (assigned : String → ℤ)
    (bid : String) (m : Nat) (r : List String) (a : String → ℤ)
    (hm : 1 ≤ m)
    (h : find_optimal_route hav stops buses assigned bid m = some (r, a)) :
    r.length ≤ m ∧ r.Nodup := by
  unfold find_optimal_route at h
  rcases hb : lookupBus buses bid with _ | bus
  · rw [hb] at h; exact absurd h (by simp)
  rw [hb] at h
  obtain ⟨hlen, hnd⟩ := routeLoop_length_nodup hav stops
    (buses.map Bus.current_stop) bus.capacity _ _ _ _ _ _ _ _ h
  constructor
  · simp only [List.length_cons, List.length_nil] at hlen
    omega
  · exact hnd (by simp)

/-- `find_optimal_route` returns (no `KeyError`) whenever the requested bus
exists and its start stop is a known stop id — for arbitrary demand
values and capacities. -/
theorem find_isSome (hav : Location → Location → ℚ) (stops : List BusStop)
    (buses : List Bus) (assigned : String → ℤ) (bid : String) (m : Nat)
    (hbid : bid ∈ buses.map Bus.id)
    (hstarts : ∀ b ∈ buses, (lookupStop stops b.current_stop).isSome) :
    (find_optimal_route hav stops buses assigned bid m).isSome := by
  rcases Option.isSome_iff_exists.mp (lookupBus_isSome_of_mem_ids hbid)
    with ⟨bus, hb⟩
  unfold find_optimal_route
  rw [hb]
  apply routeLoop_isSome
  · intro p hp
    split at hp
    · exact totalDemands_keys hp
    · exact remainingDemands_keys hp
  · exact hstarts bus (lookupBus_mem hb).1

end DART

namespace DART

/-! ### The planning cycle: processing order, route storage, shapes -/

theorem sortedBusIds_perm (buses : List Bus) :
    (sortedBusIds buses).Perm (buses.map Bus.id) :=
  List.perm_insertionSort _ _

theorem mem_sortedBusIds {buses : List Bus} {b : Bus} (hb : b ∈ buses) :
    b.id ∈ sortedBusIds buses :=
  (sortedBusIds_perm buses).mem_iff.mpr (List.mem_map_of_mem _ hb)

theorem setRoute_map_id (buses : List Bus) (bid : String) (r : List String) :
    (setRoute buses bid r).map Bus.id = buses.map Bus.id := by
  unfold setRoute
  rw [List.map_map]
  apply List.map_congr_left
  intro b _
  simp only [Function.comp]
  split <;> rfl

theorem setRoute_mem {buses : List Bus} {bid : String} {r : List String}
    {b' : Bus} (h : b' ∈ setRoute buses bid r) :
    ∃ b ∈ buses, b'.id = b.id ∧ b'.current_stop = b.current_stop ∧
      b'.capacity = b.capacity := by
  rcases List.mem_map.mp h with ⟨b, hb, rfl⟩
  refine ⟨b, hb, ?_⟩
  split <;> exact ⟨rfl, rfl, rfl⟩

theorem busShape_refl (b : Bus) : BusShape b b := ⟨rfl, rfl, rfl⟩

theorem forall2_shape_refl : ∀ (l : List Bus), List.Forall₂ BusShape l l
  | [] => List.Forall₂.nil
  | b :: l => List.Forall₂.cons (busShape_refl b) (forall2_shape_refl l)

theorem forall2_shape_trans : ∀ {l1 l2 l3 : List Bus},
    List.Forall₂ BusShape l1 l2 → List.Forall₂ BusShape l2 l3 →
    List.Forall₂ BusShape l1 l3 := by
  intro l1 l2 l3 h12 h23
  induction h12 generalizing l3 with
  | nil => cases h23; exact List.Forall₂.nil
  | cons hbb htail ih =>
    cases h23 with
    | cons hcc httail =>
      exact List.Forall₂.cons
        ⟨hbb.1.trans hcc.1, hbb.2.1.trans hcc.2.1, hbb.2.2.trans hcc.2.2⟩
        (ih httail)

theorem forall2_shape_map_current {bs bs' : List Bus}
    (h : List.Forall₂ BusShape bs bs') :
    bs.map Bus.current_stop = bs'.map Bus.current_stop := by
  induction h with
  | nil => rfl
  | cons hbb _ ih => simp only [List.map_cons, hbb.2.1, ih]

theorem forall2_shape_map_id {bs bs' : List Bus}
    (h : List.Forall₂ BusShape bs bs') :
    bs.map Bus.id = bs'.map Bus.id := by
  induction h with
  | nil => rfl
  | cons hbb _ ih => simp only [List.map_cons, hbb.1, ih]

theorem forall2_setRoute (buses : List Bus) (bid : String) (r : List String) :
    List.Forall₂ BusShape buses (setRoute buses bid r) := by
  induction buses with
  | nil => exact List.Forall₂.nil
  | cons b l ih =>
    refine List.Forall₂.cons ?_ ih
    simp only [setRoute]
    split <;> exact ⟨rfl, rfl, rfl⟩

theorem lookupBus_shape {bs bs' : List Bus}
    (h : List.Forall₂ BusShape bs bs') (bid : String) :
    (lookupBus bs bid = none ∧ lookupBus bs' bid = none) ∨
    ∃ b b', lookupBus bs bid = some b ∧ lookupBus bs' bid = some b' ∧
      BusShape b b' := by
  induction h with
  | nil => exact Or.inl ⟨rfl, rfl⟩
  | cons hbb htail ih =>
    rename_i b b' l l'
    by_cases hid : (b.id == bid) = true
    · right
      have hid' : (b'.id == bid) = true := by
        rw [beq_iff_eq] at hid ⊢
        rw [← hbb.1]
        exact hid
      exact ⟨b, b', by simp [lookupBus, List.find?, hid],
        by simp [lookupBus, List.find?, hid'], hbb⟩
    · have hid' : ¬ (b'.id == bid) = true := by
        rw [beq_iff_eq] at hid ⊢
        rw [← hbb.1]
        exact hid
      rcases ih with ⟨h1, h2⟩ | ⟨c, c', h1, h2, hcc⟩
      · left
        constructor
        · simpa [lookupBus, List.find?, hid] using h1
        · simpa [lookupBus, List.find?, hid'] using h2
      · right
        refine ⟨c, c', ?_, ?_, hcc⟩
        · simpa [lookupBus, List.find?, hid] using h1
        · simpa [lookupBus, List.find?, hid'] using h2

/-- `find_optimal_route` reads only the id, start stop and capacity of the
buses (besides the stop list and ledger): replacing the stored routes does
not change its result. -/
theorem find_shape (hav : Location → Location → ℚ) (stops : List BusStop)
    {bs bs' : List Bus} (h : List.Forall₂ BusShape bs bs')
    (assigned : String → ℤ) (bid : String) (m : Nat) :
    find_optimal_route hav stops bs assigned bid m
      = find_optimal_route hav stops bs' assigned bid m := by
  unfold find_optimal_route
  rcases lookupBus_shape h bid with ⟨h1, h2⟩ | ⟨b, b', h1, h2, hsh⟩
  · rw [h1, h2]
  · rw [h1, h2]
    simp only [forall2_shape_map_current h, hsh.2.1, hsh.2.2]

end DART

namespace DART

theorem planAux_isSome (hav : Location → Location → ℚ) (stops : List BusStop) :
    ∀ (ids : List String) (buses : List Bus) (assigned : String → ℤ),
    (∀ bid ∈ ids, bid ∈ buses.map Bus.id) →
    (∀ b ∈ buses, (lookupStop stops b.current_stop).isSome) →
    (planAux hav stops ids buses assigned).isSome := by
  intro ids
  induction ids with
  | nil => intro buses assigned _ _; simp [planAux]
  | cons bid ids ih =>
    intro buses assigned hids hstarts
    simp only [planAux]
    rcases Option.isSome_iff_exists.mp
      (find_isSome hav stops buses assigned bid 5
        (hids bid (List.mem_cons_self _ _)) hstarts) with ⟨⟨r, a'⟩, hf⟩
    rw [hf]
    apply ih
    · intro x hx
      rw [setRoute_map_id]
      exact hids x (List.mem_cons_of_mem _ hx)
    · intro b hb
      rcases setRoute_mem hb with ⟨b0, hb0, _, hcs, _⟩
      rw [hcs]
      exact hstarts b0 hb0

/-- While no vehicle triggers the fallback, the ledger stays bounded by
`max 0 (total demand)` at every stop, across the whole cycle. -/
theorem planAux_ledger_bound (hav : Location → Location → ℚ)
    (stops : List BusStop) :
    ∀ (ids : List String) (buses : List Bus) (assigned : String → ℤ),
    noFallback hav stops ids buses assigned = true →
    (∀ sid, assigned sid ≤ max 0 (demandOf stops sid)) →
    ∀ {buses' : List Bus} {a' : String → ℤ},
    planAux hav stops ids buses assigned = some (buses', a') →
    ∀ sid, a' sid ≤ max 0 (demandOf stops sid) := by
  intro ids
  induction ids with
  | nil =>
    intro buses assigned _ hbound buses' a' h
    simp only [planAux, Option.some_inj, Prod.mk.injEq] at h
    obtain ⟨rfl, rfl⟩ := h
    exact hbound
  | cons bid ids ih =>
    intro buses assigned hnf hbound buses' a' h
    simp only [planAux] at h
    rcases hf : find_optimal_route hav stops buses assigned bid 5
      with _ | ⟨r, a1⟩
    · rw [hf] at h; exact absurd h (by simp)
    · rw [hf] at h
      simp only [noFallback, hf, Bool.and_eq_true, decide_eq_true_eq] at hnf
      obtain ⟨hsum, hnf'⟩ := hnf
      have hstep := find_ledger_bound hav stops buses assigned bid 5 r a1 hsum hf
      have hbound1 : ∀ sid, a1 sid ≤ max 0 (demandOf stops sid) := by
        intro sid
        calc a1 sid ≤ max (assigned sid) (demandOf stops sid) := hstep sid
          _ ≤ max 0 (demandOf stops sid) :=
            max_le (hbound sid) (le_max_right _ _)
      exact ih _ _ hnf' hbound1 h

/-- With an all-zero demand vector and an all-zero incoming ledger, one
vehicle's route construction leaves the ledger all-zero. -/
theorem find_ledger_zero (hav : Location → Location → ℚ)
    (stops : List BusStop) (buses : List Bus) (assigned : String → ℤ)
    (bid : String) (m : Nat) (r : List String) (a : String → ℤ)
    (hz : ∀ s ∈ stops, s.demand = 0) (ha : ∀ sid, assigned sid = 0)
    (h : find_optimal_route hav stops buses assigned bid m = some (r, a)) :
    ∀ sid, a sid = 0 := by
  unfold find_optimal_route at h
  rcases hb : lookupBus buses bid with _ | bus
  · rw [hb] at h; exact absurd h (by simp)
  rw [hb] at h
  have hrem0 : ∀ sid, remLookup (remainingDemands stops assigned) sid = 0 := by
    intro sid
    rw [remLookup_remainingDemands]
    rcases hs : lookupStop stops sid with _ | s
    · rfl
    · have := hz s (lookupStop_mem hs).1
      simp [this, ha s.id]
  have hremT : ∀ sid, remLookup (totalDemands stops) sid = 0 := by
    intro sid
    rw [remLookup_totalDemands]
    rcases hs : lookupStop stops sid with _ | s
    · rfl
    · exact hz s (lookupStop_mem hs).1
  intro sid
  have hres : ∀ sid, a sid = assigned sid := by
    by_cases hcase : ((remainingDemands stops assigned).map Prod.snd).sum = 0
    · simp only [if_pos hcase] at h
      exact routeLoop_zero hav stops _ _ _ hremT _ _ _ _ _ _ _ h
    · simp only [if_neg hcase] at h
      exact routeLoop_zero hav stops _ _ _ hrem0 _ _ _ _ _ _ _ h
  rw [hres sid, ha sid]

/-- With an all-zero demand vector the whole cycle leaves the ledger
all-zero. -/
theorem planAux_zero (hav : Location → Location → ℚ) (stops : List BusStop)
    (hz : ∀ s ∈ stops, s.demand = 0) :
    ∀ (ids : List String) (buses : List Bus) (assigned : String → ℤ),
    (∀ sid, assigned sid = 0) →
    ∀ {buses' : List Bus} {a' : String → ℤ},
    planAux hav stops ids buses assigned = some (buses', a') →
    ∀ sid, a' sid = 0 := by
  intro ids
  induction ids with
  | nil =>
    intro buses assigned ha buses' a' h
    simp only [planAux, Option.some_inj, Prod.mk.injEq] at h
    obtain ⟨rfl, rfl⟩ := h
    exact ha
  | cons bid ids ih =>
    intro buses assigned ha buses' a' h
    simp only [planAux] at h
    rcases hf : find_optimal_route hav stops buses assigned bid 5
      with _ | ⟨r, a1⟩
    · rw [hf] at h; exact absurd h (by simp)
    · rw [hf] at h
      exact ih _ _ (find_ledger_zero hav stops buses assigned bid 5 r a1
        hz ha hf) h

/-- Every bus coming out of a planning cycle carries a route that either was
just produced by `find_optimal_route` or satisfied the predicate already
and was never reassigned. -/
theorem planAux_routes (hav : Location → Location → ℚ) (stops : List BusStop)
    (Q : Option (List String) → Prop)
    (hfind : ∀ (buses : List Bus) (assigned : String → ℤ) (bid : String)
      (r : List String) (a' : String → ℤ),
      find_optimal_route hav stops buses assigned bid 5 = some (r, a') →
      Q (some r)) :
    ∀ (ids : List String) (buses : List Bus) (assigned : String → ℤ),
    (∀ b ∈ buses, b.id ∈ ids ∨ Q b.route) →
    ∀ {buses' : List Bus} {a' : String → ℤ},
    planAux hav stops ids buses assigned = some (buses', a') →
    ∀ b ∈ buses', Q b.route := by
  intro ids
  induction ids with
  | nil =>
    intro buses assigned hmem buses' a' h
    simp only [planAux, Option.some_inj, Prod.mk.injEq] at h
    obtain ⟨rfl, rfl⟩ := h
    intro b hb
    rcases hmem b hb with h1 | h1
    · cases h1
    · exact h1
  | cons bid ids ih =>
    intro buses assigned hmem buses' a' h
    simp only [planAux] at h
    rcases hf : find_optimal_route hav stops buses assigned bid 5
      with _ | ⟨r, a1⟩
    · rw [hf] at h; exact absurd h (by simp)
    · rw [hf] at h
      refine ih _ _ ?_ h
      intro b' hb'
      rcases List.mem_map.mp hb' with ⟨b, hb, rfl⟩
      by_cases hid : (b.id == bid) = true
      · right
        simp only [if_pos hid]
        exact hfind buses assigned bid r a1 hf
      · simp only [if_neg hid]
        rcases hmem b hb with h1 | h1
        · rcases List.mem_cons.mp h1 with h2 | h2
          · exact absurd (by rw [h2]; exact beq_self_eq_true bid) hid
          · exact Or.inl h2
        · exact Or.inr h1

theorem planAux_shape (hav : Location → Location → ℚ) (stops : List BusStop) :
    ∀ (ids : List String) (buses : List Bus) (assigned : String → ℤ)
      {buses' : List Bus} {a' : String → ℤ},
    planAux hav stops ids buses assigned = some (buses', a') →
    List.Forall₂ BusShape buses buses' := by
  intro ids
  induction ids with
  | nil =>
    intro buses assigned buses' a' h
    simp only [planAux, Option.some_inj, Prod.mk.injEq] at h
    obtain ⟨rfl, rfl⟩ := h
    exact forall2_shape_refl buses
  | cons bid ids ih =>
    intro buses assigned buses' a' h
    simp only [planAux] at h
    rcases hf : find_optimal_route hav stops buses assigned bid 5
      with _ | ⟨r, a1⟩
    · rw [hf] at h; exact absurd h (by simp)
    · rw [hf] at h
      exact forall2_shape_trans (forall2_setRoute buses bid r) (ih _ _ h)

end DART

namespace DART

theorem forall2_strengthen {ids : List String} {l1 l2 : List Bus}
    (h : List.Forall₂ BusShape l1 l2) (hmem : ∀ b ∈ l1, b.id ∈ ids) :
    List.Forall₂ (fun b b' => BusShape b b' ∧ (b.id ∉ ids → b.route = b'.route))
      l1 l2 := by
  induction h with
  | nil => exact List.Forall₂.nil
  | cons hbb htail ih =>
    refine List.Forall₂.cons
      ⟨hbb, fun hn => absurd (hmem _ (List.mem_cons_self _ _)) hn⟩ ?_
    exact ih (fun b hb => hmem b (List.mem_cons_of_mem _ hb))

/-- Re-running a planning cycle over buses that differ only in their stored
routes (and whose ids are all scheduled) produces the same ledger and the
same `(id, route)` assignment. -/
theorem planAux_shape_routes (hav : Location → Location → ℚ)
    (stops : List BusStop) :
    ∀ (ids : List String) (buses buses' : List Bus) (assigned : String → ℤ),
    List.Forall₂ (fun b b' => BusShape b b' ∧ (b.id ∉ ids → b.route = b'.route))
      buses buses' →
    ∀ {bs : List Bus} {a2 : String → ℤ},
    planAux hav stops ids buses assigned = some (bs, a2) →
    ∃ bs', planAux hav stops ids buses' assigned = some (bs', a2) ∧
      bs.map (fun b => (b.id, b.route)) = bs'.map (fun b => (b.id, b.route)) := by
  intro ids
  induction ids with
  | nil =>
    intro buses buses' assigned hinv bs a2 h
    simp only [planAux, Option.some_inj, Prod.mk.injEq] at h
    obtain ⟨rfl, rfl⟩ := h
    refine ⟨buses', rfl, ?_⟩
    induction hinv with
    | nil => rfl
    | cons hbb _ ih =>
      simp only [List.map_cons, ih]
      have h1 := hbb.1.1
      have h2 := hbb.2 (List.not_mem_nil _)
      rw [h1, h2]
  | cons bid ids ih =>
    intro buses buses' assigned hinv bs a2 h
    simp only [planAux] at h
    rcases hf : find_optimal_route hav stops buses assigned bid 5
      with _ | ⟨r, a1⟩
    · rw [hf] at h; exact absurd h (by simp)
    rw [hf] at h
    have hshape : List.Forall₂ BusShape buses buses' :=
      hinv.imp (fun _ _ hp => hp.1)
    have hf' : find_optimal_route hav stops buses' assigned bid 5
        = some (r, a1) := by
      rw [← find_shape hav stops hshape assigned bid 5]
      exact hf
    have hinv' : List.Forall₂
        (fun b b' => BusShape b b' ∧ (b.id ∉ ids → b.route = b'.route))
        (setRoute buses bid r) (setRoute buses' bid r) := by
      clear h hf hf' ih hshape
      induction hinv with
      | nil => exact List.Forall₂.nil
      | cons hbb htail ihh =>
        rename_i b b' l l'
        simp only [setRoute, List.map_cons]
        refine List.Forall₂.cons ?_ (by simpa [setRoute] using ihh)
        have hid : (b'.id == bid) = (b.id == bid) := by
          rw [hbb.1.1]
        by_cases hcase : (b.id == bid) = true
        · rw [if_pos hcase, if_pos (by rw [hid]; exact hcase)]
          exact ⟨⟨hbb.1.1, hbb.1.2.1, hbb.1.2.2⟩, fun _ => rfl⟩
        · rw [if_neg hcase, if_neg (by rw [hid]; exact hcase)]
          refine ⟨hbb.1, fun hn => hbb.2 ?_⟩
          intro hmem
          rcases List.mem_cons.mp hmem with h1 | h1
          · exact hcase (by rw [h1]; exact beq_self_eq_true bid)
          · exact hn h1
    rcases ih _ _ _ hinv' h with ⟨bs', hrun, hmaps⟩
    refine ⟨bs', ?_, hmaps⟩
    simp only [planAux, hf']
    exact hrun

end DART

namespace DART

/-! ### The string order used by sorted() -/

theorem lexLe_total : ∀ (a b : List Char), lexLe a b = true ∨ lexLe b a = true := by
  intro a
  induction a with
  | nil => intro b; left; cases b <;> rfl
  | cons x xs ih =>
    intro b
    cases b with
    | nil => right; rfl
    | cons y ys =>
      simp only [lexLe]
      rcases Nat.lt_trichotomy x.toNat y.toNat with h | h | h
      · left; rw [if_pos h]
      · rw [if_neg (by omega), if_neg (by omega), if_neg (by omega),
          if_neg (by omega)]
        exact ih ys
      · right; rw [if_pos h]

theorem lexLe_trans : ∀ (a b c : List Char),
    lexLe a b = true → lexLe b c = true → lexLe a c = true := by
  intro a
  induction a with
  | nil => intro b c _ _; cases c <;> rfl
  | cons x xs ih =>
    intro b c hab hbc
    cases b with
    | nil => exact absurd hab (by simp [lexLe])
    | cons y ys =>
      cases c with
      | nil => exact absurd hbc (by simp [lexLe])
      | cons z zs =>
        simp only [lexLe] at hab hbc ⊢
        by_cases h1 : x.toNat < y.toNat
        · by_cases h2 : y.toNat < z.toNat
          · rw [if_pos (by omega : x.toNat < z.toNat)]
          · by_cases h3 : z.toNat < y.toNat
            · rw [if_neg h2, if_pos h3] at hbc
              exact absurd hbc (by simp)
            · rw [if_pos (by omega : x.toNat < z.toNat)]
        · by_cases h1' : y.toNat < x.toNat
          · rw [if_neg h1, if_pos h1'] at hab
            exact absurd hab (by simp)
          · by_cases h2 : y.toNat < z.toNat
            · rw [if_pos (by omega : x.toNat < z.toNat)]
            · by_cases h3 : z.toNat < y.toNat
              · rw [if_neg h2, if_pos h3] at hbc
                exact absurd hbc (by simp)
              · rw [if_neg (by omega), if_neg (by omega)]
                rw [if_neg h1, if_neg h1'] at hab
                rw [if_neg h2, if_neg h3] at hbc
                exact ih ys zs hab hbc

theorem strLe_total (a b : String) : strLe a b = true ∨ strLe b a = true :=
  lexLe_total a.data b.data

theorem strLe_trans (a b c : String) :
    strLe a b = true → strLe b c = true → strLe a c = true :=
  lexLe_trans a.data b.data c.data

theorem sortedBusIds_sorted (buses : List Bus) :
    (sortedBusIds buses).Sorted (fun a b => strLe a b = true) :=
  @List.sorted_insertionSort String (fun a b => strLe a b = true)
    (fun _ _ => instDecidableEqBool _ _)
    ⟨strLe_total⟩ ⟨fun _ _ _ => strLe_trans _ _ _⟩ (buses.map Bus.id)

end DART

namespace DART

attribute [local semireducible] Rat.mul Rat.inv Rat.add Rat.sub

/-! ### Claim theorems -/

/-- C1 (counterexample): as stated the claim is false.  In `fallbackSys`
stop `B` has demand 10, but after one planning cycle the ledger records 20
units for `B`: the second bus finds every remaining demand zero, triggers
the fallback that re-offers the raw demands, and claims another 10. -/
theorem claim1_frozen_demand_counterexample :
    ∃ sys', update_all_routes mdist fallbackSys = some sys' ∧
      sys'.assigned_demands "B" = 20 ∧
      lookupStop fallbackSys.stops "B" = some ⟨"B", ⟨1, 0⟩, 10, 0⟩ ∧
      ¬ ((20:ℤ) ≤ 10) :=
  ⟨_, rfl, rfl, rfl, by decide⟩

/-- C1 (amended): provided no vehicle's route construction triggers the
zero-remaining fallback (predicate `noFallback`) and the demands are
nonnegative, the total units claimed per stop over one planning cycle
never exceed that stop's demand frozen at cycle start. -/
theorem claim1_frozen_demand_invariant (hav : Location → Location → ℚ)
    (sys sys' : DARTSystem)
    (hids : (sys.stops.map BusStop.id).Nodup)
    (hdem : ∀ s ∈ sys.stops, 0 ≤ s.demand)
    (hnf : noFallback hav sys.stops (sortedBusIds sys.buses) sys.buses
      (fun _ => 0) = true)
    (hrun : update_all_routes hav sys = some sys') :
    ∀ s ∈ sys.stops, sys'.assigned_demands s.id ≤ s.demand := by
  unfold update_all_routes at hrun
  rcases hp : planAux hav sys.stops (sortedBusIds sys.buses) sys.buses
    (fun _ => 0) with _ | ⟨bs, a⟩
  · rw [hp] at hrun; exact absurd hrun (by simp)
  rw [hp] at hrun
  simp only [Option.some_inj] at hrun
  subst hrun
  intro s hs
  have hb := planAux_ledger_bound hav sys.stops _ _ _ hnf
    (fun sid => le_max_left _ _) hp s.id
  have hd : demandOf sys.stops s.id = s.demand := by
    rw [demandOf, lookupStop_of_nodup hids hs]
  rw [hd] at hb
  have h0 := hdem s hs
  simpa [max_eq_right h0] using hb

/-- Witness for C1's amended theorem at a concrete input. -/
theorem claim1_frozen_demand_invariant_witness :
    ∃ sys', update_all_routes mdist tinySys = some sys' ∧
      ∀ s ∈ tinySys.stops, sys'.assigned_demands s.id ≤ s.demand := by
  refine ⟨_, rfl, ?_⟩
  exact claim1_frozen_demand_invariant mdist tinySys _ (by decide) (by decide)
    (by decide) rfl

/-- C2 (counterexample): with every demand zero the route is not empty or
single-stop: in `zeroSys` the bus is still assigned the two-stop route
`[A, B]` (zero-demand stops score positively and get appended). -/
theorem claim2_zero_demand_counterexample :
    ∃ sys', update_all_routes mdist zeroSys = some sys' ∧
      (∀ s ∈ zeroSys.stops, s.demand = 0) ∧
      sys'.buses.map Bus.route = [some ["A", "B"]] ∧
      ¬ (["A", "B"].length ≤ 1) :=
  ⟨_, rfl, by decide, rfl, by decide⟩

/-- C2 (amended): if every stop has demand 0 the ledger stays all-zero
(every pickup is `min(0, cap) = 0`), but routes may still contain up to
`max_stops` distinct stops — the selection loop appends zero-demand
stops. -/
theorem claim2_zero_demand_ledger (hav : Location → Location → ℚ)
    (sys sys' : DARTSystem)
    (hz : ∀ s ∈ sys.stops, s.demand = 0)
    (hrun : update_all_routes hav sys = some sys') :
    (∀ sid, sys'.assigned_demands sid = 0) ∧
    (∀ b ∈ sys'.buses, ∀ r, b.route = some r → r.length ≤ 5 ∧ r.Nodup) := by
  unfold update_all_routes at hrun
  rcases hp : planAux hav sys.stops (sortedBusIds sys.buses) sys.buses
    (fun _ => 0) with _ | ⟨bs, a⟩
  · rw [hp] at hrun; exact absurd hrun (by simp)
  rw [hp] at hrun
  simp only [Option.some_inj] at hrun
  subst hrun
  constructor
  · exact planAux_zero hav sys.stops hz _ _ _ (fun _ => rfl) hp
  · intro b hb r hr
    refine planAux_routes hav sys.stops
      (fun o => ∀ r, o = some r → r.length ≤ 5 ∧ r.Nodup) ?_ _ _ _ ?_ hp
      b hb r hr
    · intro buses assigned bid r' a' hf r'' hr''
      obtain rfl : r' = r'' := Option.some_inj.mp hr''
      exact find_route_length_nodup hav sys.stops buses assigned bid 5 r' a'
        (by norm_num) hf
    · intro b' hb'
      exact Or.inl (mem_sortedBusIds hb')

/-- Witness for C2's amended theorem at a concrete input. -/
theorem claim2_zero_demand_ledger_witness :
    ∃ sys', update_all_routes mdist zeroSys = some sys' ∧
      sys'.assigned_demands "A" = 0 ∧ sys'.assigned_demands "B" = 0 := by
  refine ⟨_, rfl, ?_, ?_⟩
  · exact (claim2_zero_demand_ledger mdist zeroSys _ (by decide) rfl).1 "A"
  · exact (claim2_zero_demand_ledger mdist zeroSys _ (by decide) rfl).1 "B"

/-- C3 (counterexample): in the spec's concrete scenario the returned route
is `[A, B, C]`, not `[A, B]` — after serving `B` the zero-demand stop `C`
still scores positively and is appended. -/
theorem claim3_scenario_counterexample :
    ∃ sys', update_all_routes mdist scenarioSys = some sys' ∧
      sys'.buses.map Bus.route = [some ["A", "B", "C"]] ∧
      some ["A", "B", "C"] ≠ some ["A", "B"] :=
  ⟨_, rfl, rfl, by decide⟩

/-- C3 (amended): the scenario's route is `[A, B, C]` (C appended with a
pickup of 0), and the ledger after the cycle records 10 for `B` and 0 for
the start stop `A` (its demand is never claimed) and for `C`. -/
theorem claim3_scenario :
    ∃ sys', update_all_routes mdist scenarioSys = some sys' ∧
      sys'.buses.map Bus.route = [some ["A", "B", "C"]] ∧
      sys'.assigned_demands "A" = 0 ∧ sys'.assigned_demands "B" = 10 ∧
      sys'.assigned_demands "C" = 0 :=
  ⟨_, rfl, rfl, rfl, rfl, rfl⟩

/-- C4: whenever the selection loop runs with positive remaining capacity
(hence the divisor `bus.capacity` is positive), nonnegative offered
demands, a known current stop and at least one stop not on the route, a
next stop is always chosen — every candidate's score is positive, hence
above the initial best score `-1`, even when its remaining demand is
zero — and the loop body appends it, claiming
`min(remaining, capacity)`. -/
theorem claim4_selection_never_declines (hav : Location → Location → ℚ)
    (stops : List BusStop) (busStarts : List String) (capacity : ℤ)
    (route : List String) (current : String) (rems : List (String × ℤ))
    (hhav : ∀ p q, 0 ≤ hav p q) (hcap : 0 < capacity)
    (hcur : (lookupStop stops current).isSome)
    (hkeys : ∀ p ∈ rems, (lookupStop stops p.1).isSome)
    (hvals : ∀ p ∈ rems, 0 ≤ p.2)
    (hcand : ∃ p ∈ rems, p.1 ∉ route) :
    ∃ x, selectNext hav stops busStarts capacity route current rems (-1) none
        = some (some x) ∧ x ∉ route ∧
      ∀ (fuel : Nat) (cap : ℤ) (assigned : String → ℤ), 0 < cap →
        routeLoop hav stops busStarts capacity rems (fuel + 1) route cap
          assigned current
        = routeLoop hav stops busStarts capacity rems fuel (route ++ [x])
            (cap - min (remLookup rems x) cap)
            (ledgerClaim assigned x (min (remLookup rems x) cap)) x := by
  obtain ⟨x, hx, hnr⟩ := selectNext_picks hav stops busStarts capacity route
    current hhav hcap hcur rems hkeys hvals (-1) none (fun _ => by norm_num)
    (fun y hy => nomatch hy) (Or.inl hcand)
  refine ⟨x, hx, hnr, ?_⟩
  intro fuel cap assigned hcappos
  simp only [routeLoop, if_pos hcappos, hx]

theorem mdist_nonneg (p q : Location) : 0 ≤ mdist p q :=
  add_nonneg (abs_nonneg _) (abs_nonneg _)

/-- Witness for C4 at a concrete input. -/
theorem claim4_selection_never_declines_witness :
    ∃ x, selectNext mdist zeroStops ["A"] 60 ["A"] "A"
        (totalDemands zeroStops) (-1) none = some (some x) ∧ x ∉ ["A"] := by
  obtain ⟨x, hx, hnr, _⟩ := claim4_selection_never_declines mdist zeroStops
    ["A"] 60 ["A"] "A" (totalDemands zeroStops) mdist_nonneg (by decide)
    (by decide) (by decide) (by decide) (by decide)
  exact ⟨x, hx, hnr⟩

end DART

namespace DART

attribute [local semireducible] Rat.mul Rat.inv Rat.add Rat.sub

/-- C5 (counterexample): as stated the claim is false.  `invalidSys`
contains every kind of invalid input — a stop with negative demand, a
zero-capacity vehicle, and a vehicle whose start references an unknown
stop id — yet the planning cycle completes without any failure, silently
clamping the negative demand to a zero remaining demand. -/
theorem claim5_validation_counterexample :
    (∃ s ∈ invalidStops, s.demand < 0) ∧
    (∃ b ∈ invalidBuses, b.capacity ≤ 0) ∧
    (∃ b ∈ invalidBuses, lookupStop invalidStops b.current_stop = none) ∧
    ∃ sys', update_all_routes mdist invalidSys = some sys' ∧
      sys'.assigned_demands "A" = 0 ∧ sys'.assigned_demands "B" = 7 :=
  ⟨by decide, by decide, by decide, _, rfl, rfl, rfl⟩

/-- C5 (amended): the engine performs no input validation at the boundary:
`update_all_routes` succeeds for arbitrary — in particular negative —
demands and nonpositive capacities.  The only possible failure is the
`KeyError` for an unknown stop id, raised inside route construction when
the selection loop actually runs, not a precondition check; whenever
every vehicle's start id is a known stop, `plan()` always succeeds. -/
theorem claim5_no_boundary_validation (hav : Location → Location → ℚ)
    (sys : DARTSystem)
    (hstarts : ∀ b ∈ sys.buses,
      (lookupStop sys.stops b.current_stop).isSome) :
    ∃ sys', update_all_routes hav sys = some sys' := by
  have h := planAux_isSome hav sys.stops (sortedBusIds sys.buses) sys.buses
    (fun _ => 0)
    (fun bid hbid => (sortedBusIds_perm sys.buses).mem_iff.mp hbid) hstarts
  rcases Option.isSome_iff_exists.mp h with ⟨⟨bs, a⟩, hp⟩
  exact ⟨⟨sys.stops, bs, a⟩, by unfold update_all_routes; rw [hp]⟩

/-- Witness for C5's amended theorem at a concrete input (note the demands
and one capacity are invalid, yet the call succeeds). -/
theorem claim5_no_boundary_validation_witness :
    ∃ sys', update_all_routes mdist tinySys = some sys' :=
  claim5_no_boundary_validation mdist tinySys (by decide)

/-- C7: the route returned by `find_optimal_route` has length at most
`max_stops` (whenever `max_stops ≥ 1`; `update_all_routes` always passes
the default 5) and visits each stop at most once. -/
theorem claim7_length_and_distinct (hav : Location → Location → ℚ)
    (stops : List BusStop) (buses : List Bus) (assigned : String → ℤ)
    (bid : String) (m : Nat) (r : List String) (a : String → ℤ)
    (hm : 1 ≤ m)
    (h : find_optimal_route hav stops buses assigned bid m = some (r, a)) :
    r.length ≤ m ∧ r.Nodup :=
  find_route_length_nodup hav stops buses assigned bid m r a hm h

/-- Witness for C7 at a concrete input. -/
theorem claim7_length_and_distinct_witness :
    ∃ r a, find_optimal_route mdist scenarioStops scenarioBuses (fun _ => 0)
        "Bus_0" 5 = some (r, a) ∧ r.length ≤ 5 ∧ r.Nodup := by
  refine ⟨_, _, rfl, ?_⟩
  exact claim7_length_and_distinct mdist scenarioStops scenarioBuses
    (fun _ => 0) "Bus_0" 5 _ _ (by norm_num) rfl

/-- C10: a vehicle with capacity 0 fails the `remaining_capacity > 0` guard
immediately: it claims nothing and its route is just its start stop (length
1); the result is the same for every distance function, so the scoring
(which divides by the capacity) is never consulted. -/
theorem claim10_zero_capacity (stops : List BusStop) (buses : List Bus)
    (assigned : String → ℤ) (bid : String) (bus : Bus) (m : Nat)
    (hb : lookupBus buses bid = some bus) (hcap : bus.capacity = 0) :
    ∀ hav, find_optimal_route hav stops buses assigned bid m
      = some ([bus.current_stop], assigned) :=
  fun hav => find_capacity_nonpos hav stops buses assigned bid bus m hb
    (le_of_eq hcap)

/-- Witness for C10 at a concrete input (`Bus_1` of `invalidBuses` has
capacity 0 and even an unknown start stop; the route is `["Z"]` and the
ledger is unchanged). -/
theorem claim10_zero_capacity_witness :
    find_optimal_route mdist invalidStops invalidBuses (fun _ => 0) "Bus_1" 5
      = some (["Z"], fun _ => 0) :=
  claim10_zero_capacity invalidStops invalidBuses (fun _ => 0) "Bus_1"
    ⟨"Bus_1", "Z", 0, 0, none⟩ 5 (by decide) rfl mdist

end DART

namespace DART

attribute [local semireducible] Rat.mul Rat.inv Rat.add Rat.sub

/-- C6: re-running `update_all_routes` from the state left by a first run
(same demands and topology, no intervening vehicle-state change — the
planner only rewrites routes and the ledger, which it resets) produces
identical routes for every vehicle, and the same ledger. -/
theorem claim6_plan_idempotent (hav : Location → Location → ℚ)
    (sys sys₁ sys₂ : DARTSystem)
    (h1 : update_all_routes hav sys = some sys₁)
    (h2 : update_all_routes hav sys₁ = some sys₂) :
    sys₂.buses.map (fun b => (b.id, b.route))
      = sys₁.buses.map (fun b => (b.id, b.route)) ∧
    ∀ sid, sys₂.assigned_demands sid = sys₁.assigned_demands sid := by
  unfold update_all_routes at h1 h2
  rcases hp1 : planAux hav sys.stops (sortedBusIds sys.buses) sys.buses
    (fun _ => 0) with _ | ⟨bs1, a1⟩
  · rw [hp1] at h1; exact absurd h1 (by simp)
  rw [hp1] at h1
  simp only [Option.some_inj] at h1
  have hs1 : sys₁.stops = sys.stops := by rw [← h1]
  have hb1 : sys₁.buses = bs1 := by rw [← h1]
  have ha1 : sys₁.assigned_demands = a1 := by rw [← h1]
  rw [hs1, hb1] at h2
  have hshape := planAux_shape hav sys.stops _ _ _ hp1
  have hmapid : sys.buses.map Bus.id = bs1.map Bus.id :=
    forall2_shape_map_id hshape
  have hids : sortedBusIds bs1 = sortedBusIds sys.buses := by
    unfold sortedBusIds
    rw [hmapid]
  rw [hids] at h2
  rcases hp2 : planAux hav sys.stops (sortedBusIds sys.buses) bs1
    (fun _ => 0) with _ | ⟨bs2, a2⟩
  · rw [hp2] at h2; exact absurd h2 (by simp)
  rw [hp2] at h2
  simp only [Option.some_inj] at h2
  have hb2 : sys₂.buses = bs2 := by rw [← h2]
  have ha2 : sys₂.assigned_demands = a2 := by rw [← h2]
  have hstr := forall2_strengthen hshape (fun b hb => mem_sortedBusIds hb)
  rcases planAux_shape_routes hav sys.stops _ sys.buses bs1 (fun _ => 0)
    hstr hp1 with ⟨bs', hrun, hmaps⟩
  rw [hp2] at hrun
  simp only [Option.some_inj, Prod.mk.injEq] at hrun
  obtain ⟨hbs, has⟩ := hrun
  constructor
  · rw [hb2, hb1, hbs]
    exact hmaps.symm
  · intro sid
    rw [ha2, ha1, has]

/-- Witness for C6 at a concrete input. -/
theorem claim6_plan_idempotent_witness :
    ∃ sys₁ sys₂, update_all_routes mdist tinySys = some sys₁ ∧
      update_all_routes mdist sys₁ = some sys₂ ∧
      sys₂.buses.map (fun b => (b.id, b.route))
        = sys₁.buses.map (fun b => (b.id, b.route)) := by
  refine ⟨_, _, rfl, rfl, ?_⟩
  exact (claim6_plan_idempotent mdist tinySys _ _ rfl rfl).1

/-- C8 (counterexample): the claim-step formula fails in a fallback cycle.
The second bus of `fallbackSys` starts with ledger `claimed(B) = 10 =
demand(B)`, so `min(max(0, demand - claimed), remaining_capacity) = 0`,
yet its single claim step for `B` adds 10 units to the ledger. -/
theorem claim8_claim_formula_counterexample :
    ∃ a, find_optimal_route mdist fallbackStops fallbackBuses fallbackLedger
        "Bus_1" 5 = some (["A", "B"], a) ∧
      a "B" - fallbackLedger "B" = 10 ∧
      min (max 0 (10 - fallbackLedger "B")) 60 = 0 ∧
      (10:ℤ) ≠ 0 :=
  ⟨_, rfl, rfl, by decide, by decide⟩

/-- C8 (amended): outside the fallback (remaining demands not summing to
zero), `find_optimal_route` runs the claim loop on the dict
`remaining_demands` whose entry for each stop is exactly
`max(0, demand - claimed)` read from the ledger; each claim step for a
chosen stop claims `units = min(remaining_demands[stop],
remaining_capacity)`, decrements the capacity by exactly `units`, and adds
exactly `units` to the stop's ledger entry. -/
theorem claim8_claim_step (hav : Location → Location → ℚ)
    (stops : List BusStop) (buses : List Bus) (assigned : String → ℤ)
    (bid : String) (bus : Bus) (m : Nat)
    (hids : (stops.map BusStop.id).Nodup)
    (hbus : lookupBus buses bid = some bus)
    (hsum : ((remainingDemands stops assigned).map Prod.snd).sum ≠ 0) :
    (find_optimal_route hav stops buses assigned bid m =
      routeLoop hav stops (buses.map Bus.current_stop) bus.capacity
        (remainingDemands stops assigned) (m - 1) [bus.current_stop]
        bus.capacity assigned bus.current_stop) ∧
    (∀ s ∈ stops, remLookup (remainingDemands stops assigned) s.id
      = max 0 (s.demand - assigned s.id)) ∧
    (∀ (fuel : Nat) (route : List String) (cap : ℤ) (a : String → ℤ)
      (current next : String), 0 < cap →
      selectNext hav stops (buses.map Bus.current_stop) bus.capacity route
        current (remainingDemands stops assigned) (-1) none
        = some (some next) →
      routeLoop hav stops (buses.map Bus.current_stop) bus.capacity
        (remainingDemands stops assigned) (fuel + 1) route cap a current
      = routeLoop hav stops (buses.map Bus.current_stop) bus.capacity
          (remainingDemands stops assigned) fuel (route ++ [next])
          (cap - min (remLookup (remainingDemands stops assigned) next) cap)
          (ledgerClaim a next
            (min (remLookup (remainingDemands stops assigned) next) cap))
          next) := by
  refine ⟨?_, ?_, ?_⟩
  · unfold find_optimal_route
    rw [hbus]
    simp only [if_neg hsum]
  · intro s hs
    rw [remLookup_remainingDemands, lookupStop_of_nodup hids hs]
  · intro fuel route cap a current next hcap hsel
    simp only [routeLoop, if_pos hcap, hsel]

/-- Witness for C8's amended theorem at a concrete input. -/
theorem claim8_claim_step_witness :
    find_optimal_route mdist fallbackStops fallbackBuses (fun _ => 0)
        "Bus_0" 5
      = routeLoop mdist fallbackStops (fallbackBuses.map Bus.current_stop) 60
        (remainingDemands fallbackStops (fun _ => 0)) 4 ["A"] 60
        (fun _ => 0) "A" ∧
    remLookup (remainingDemands fallbackStops (fun _ => 0)) "B"
      = max 0 (10 - 0) := by
  have h := claim8_claim_step mdist fallbackStops fallbackBuses (fun _ => 0)
    "Bus_0" ⟨"Bus_0", "A", 60, 0, none⟩ 5 (by decide) (by decide) (by decide)
  exact ⟨h.1, h.2.1 ⟨"B", ⟨1, 0⟩, 10, 0⟩ (by decide)⟩

/-- C9: `update_all_routes` resets the ledger before processing any vehicle
(its result does not depend on the pre-existing ledger), processes the
buses in ascending id order (`sorted(self.buses.keys())` is sorted and a
permutation of the bus ids), and claims made for an earlier bus are
visible to later ones: in the two-bus scenario the first bus claims 5 of
the 20 units at `S`, the second sees a remaining demand of 15 and claims
another 5, for a cycle total of 10. -/
theorem claim9_reset_order_visibility (hav : Location → Location → ℚ)
    (sys : DARTSystem) :
    (∀ a : String → ℤ,
      update_all_routes hav
        { stops := sys.stops, buses := sys.buses, assigned_demands := a }
        = update_all_routes hav sys) ∧
    (sortedBusIds sys.buses).Sorted (fun x y => strLe x y = true) ∧
    (sortedBusIds sys.buses).Perm (sys.buses.map Bus.id) ∧
    (∃ a1, find_optimal_route mdist shareStops shareBuses (fun _ => 0)
        "Bus_0" 5 = some (["X", "S"], a1) ∧ a1 "S" = 5 ∧
      remLookup (remainingDemands shareStops a1) "S" = 15 ∧
      ∃ sys', update_all_routes mdist shareSys = some sys' ∧
        sys'.assigned_demands "S" = 10) := by
  refine ⟨fun a => rfl, sortedBusIds_sorted sys.buses,
    sortedBusIds_perm sys.buses, ?_⟩
  exact ⟨_, rfl, rfl, rfl, _, rfl, rfl⟩

end DART
